import Mathlib

/-!
Verification development for the OllamaUI repository: a shallow embedding of
the server storage layer (`server/storage.ts`, `MemStorage`), the streaming
chat decoder (`OllamaClient.streamChat` in `server/routes.ts`), the chat
route handler (`POST /api/conversations/:id/chat`), and the client-side
conversation title derivation (`startNewConversation`).

Modelling conventions:
* `new Date()` timestamps are modelled as natural numbers supplied
  explicitly by the caller (a logical clock).
* `randomUUID()` identities are modelled by a fresh-id counter `nextId`
  threaded through the store; freshness of generated ids is the analogue of
  UUID uniqueness.
* JavaScript `Map` collections are modelled as lists in insertion order
  (`Array.from(map.values())` iterates in insertion order; `map.set` on an
  existing key overwrites in place).
* `JSON.parse` is modelled by an executable JSON parser over character
  lists; numbers are modelled as integers (fraction/exponent syntax is not
  needed by the chat frames this decoder consumes).
-/

set_option maxHeartbeats 1000000

namespace OllamaUI

/-- JSON values as produced by `JSON.parse` (numbers modelled as integers). -/
inductive Json where
  | null
  | bool (b : Bool)
  | num (n : Int)
  | str (s : String)
  | arr (elems : List Json)
  | obj (fields : List (String × Json))

/-- Object-field lookup.  `JSON.parse` keeps the LAST of duplicate keys, so
the lookup prefers the rightmost binding. -/
def jsonLookup (fields : List (String × Json)) (key : String) : Option Json :=
  match fields with
  | [] => none
  | (k, v) :: rest =>
    match jsonLookup rest key with
    | some w => some w
    | none => if k = key then some v else none

/-- JSON whitespace characters. -/
def isWsChar (c : Char) : Bool :=
  c = ' ' || c = '\t' || c = '\n' || c = '\r'

/-- Drop leading JSON whitespace. -/
def skipWs (cs : List Char) : List Char :=
  match cs with
  | [] => []
  | c :: rest => if isWsChar c then skipWs rest else c :: rest

/-- Hexadecimal digit value, for `\uXXXX` escapes. -/
def hexDigitVal (c : Char) : Option Nat :=
  if '0' ≤ c ∧ c ≤ '9' then some (c.toNat - '0'.toNat)
  else if 'a' ≤ c ∧ c ≤ 'f' then some (c.toNat - 'a'.toNat + 10)
  else if 'A' ≤ c ∧ c ≤ 'F' then some (c.toNat - 'A'.toNat + 10)
  else none

/-- Parse the body of a JSON string literal (the opening quote already
consumed), returning the decoded string and the rest of the input. -/
def parseStrBody (acc : List Char) : List Char → Option (String × List Char)
  | [] => none
  | '"' :: rest => some (String.mk acc.reverse, rest)
  | '\\' :: 'u' :: h1 :: h2 :: h3 :: h4 :: rest =>
    match hexDigitVal h1, hexDigitVal h2, hexDigitVal h3, hexDigitVal h4 with
    | some a, some b, some c, some d =>
      parseStrBody (Char.ofNat (((a * 16 + b) * 16 + c) * 16 + d) :: acc) rest
    | _, _, _, _ => none
  | '\\' :: e :: rest =>
    if e = '"' || e = '\\' || e = '/' then parseStrBody (e :: acc) rest
    else if e = 'b' then parseStrBody (Char.ofNat 8 :: acc) rest
    else if e = 'f' then parseStrBody (Char.ofNat 12 :: acc) rest
    else if e = 'n' then parseStrBody ('\n' :: acc) rest
    else if e = 'r' then parseStrBody ('\r' :: acc) rest
    else if e = 't' then parseStrBody ('\t' :: acc) rest
    else none
  | ['\\'] => none
  | c :: rest => parseStrBody (c :: acc) rest

/-- Parse a run of decimal digits (`seen` records whether at least one digit
has been read). -/
def parseDigits (acc : Nat) (cs : List Char) (seen : Bool) : Option (Nat × List Char) :=
  match cs with
  | [] => if seen then some (acc, []) else none
  | c :: rest =>
    if '0' ≤ c ∧ c ≤ '9' then
      parseDigits (acc * 10 + (c.toNat - '0'.toNat)) rest true
    else if seen then some (acc, c :: rest) else none

/-- Parse a JSON number (integer syntax; the chat frames never carry
fractional numbers). -/
def parseNum (cs : List Char) : Option (Int × List Char) :=
  match cs with
  | '-' :: rest => (parseDigits 0 rest false).map (fun p => (-(p.1 : Int), p.2))
  | _ => (parseDigits 0 cs false).map (fun p => ((p.1 : Int), p.2))

/-- Match a literal run of characters (for `true`, `false`, `null`). -/
def stripLit (pre : List Char) (cs : List Char) : Option (List Char) :=
  match pre, cs with
  | [], rest => some rest
  | p :: ps, c :: rest => if c = p then stripLit ps rest else none
  | _ :: _, [] => none

mutual

/-- Parse one JSON value.  `fuel` bounds recursion depth; callers supply
fuel exceeding the input length, which bounds the nesting depth. -/
def parseVal (fuel : Nat) (cs : List Char) : Option (Json × List Char) :=
  match fuel with
  | 0 => none
  | fuel + 1 =>
    match skipWs cs with
    | [] => none
    | c :: rest =>
      if c = '"' then (parseStrBody [] rest).map (fun p => (Json.str p.1, p.2))
      else if c = '\x7b' then
        match skipWs rest with
        | '\x7d' :: r2 => some (Json.obj [], r2)
        | other => parseMembers fuel other
      else if c = '[' then
        match skipWs rest with
        | ']' :: r2 => some (Json.arr [], r2)
        | other => parseElems fuel other
      else if c = 't' then (stripLit ['r', 'u', 'e'] rest).map (fun r => (Json.bool true, r))
      else if c = 'f' then (stripLit ['a', 'l', 's', 'e'] rest).map (fun r => (Json.bool false, r))
      else if c = 'n' then (stripLit ['u', 'l', 'l'] rest).map (fun r => (Json.null, r))
      else if c = '-' ∨ ('0' ≤ c ∧ c ≤ '9') then
        (parseNum (c :: rest)).map (fun p => (Json.num p.1, p.2))
      else none

/-- Parse one or more `"key": value` members followed by the closing brace. -/
def parseMembers (fuel : Nat) (cs : List Char) : Option (Json × List Char) :=
  match fuel with
  | 0 => none
  | fuel + 1 =>
    match skipWs cs with
    | '"' :: rest =>
      match parseStrBody [] rest with
      | none => none
      | some (key, r1) =>
        match skipWs r1 with
        | ':' :: r2 =>
          match parseVal fuel r2 with
          | none => none
          | some (v, r3) =>
            match skipWs r3 with
            | ',' :: r4 =>
              match parseMembers fuel r4 with
              | some (Json.obj fields, r5) => some (Json.obj ((key, v) :: fields), r5)
              | _ => none
            | '\x7d' :: r4 => some (Json.obj [(key, v)], r4)
            | _ => none
        | _ => none
    | _ => none

/-- Parse one or more array elements followed by the closing bracket. -/
def parseElems (fuel : Nat) (cs : List Char) : Option (Json × List Char) :=
  match fuel with
  | 0 => none
  | fuel + 1 =>
    match parseVal fuel cs with
    | none => none
    | some (v, r1) =>
      match skipWs r1 with
      | ',' :: r2 =>
        match parseElems fuel r2 with
        | some (Json.arr elems, r3) => some (Json.arr (v :: elems), r3)
        | _ => none
      | ']' :: r2 => some (Json.arr [v], r2)
      | _ => none

end

/-- Model of `JSON.parse`: parse a complete JSON document; trailing non-whitespace
makes the parse fail, as `JSON.parse` throws on trailing garbage. -/
def jsonParse (s : String) : Option Json :=
  match parseVal (s.length + 16) s.data with
  | some (v, rest) => if skipWs rest = [] then some v else none
  | none => none

/-- JavaScript truthiness of a parsed JSON value (`undefined` is represented
by `Option.none` at use sites). -/
def jsonTruthy (v : Json) : Bool :=
  match v with
  | Json.null => false
  | Json.bool b => b
  | Json.num n => n != 0
  | Json.str s => s != ""
  | Json.arr _ => true
  | Json.obj _ => true

mutual

/-- JavaScript string coercion of a JSON value, as applied when a yielded
`data.message.content` is concatenated onto the accumulator.  In the chat
protocol the content is always a JSON string, for which this is the
identity. -/
def jsDisplay (v : Json) : String :=
  match v with
  | Json.str s => s
  | Json.num n => toString n
  | Json.bool b => if b then "true" else "false"
  | Json.null => "null"
  | Json.arr elems => String.intercalate "," (jsDisplayList elems)
  | Json.obj _ => "[object Object]"

/-- String coercions of a list of JSON values. -/
def jsDisplayList (vs : List Json) : List String :=
  match vs with
  | [] => []
  | v :: rest => jsDisplay v :: jsDisplayList rest

end

/-- One decoded inference-backend frame, as observed by the loop body of
`OllamaClient.streamChat`:
`yields` is `some s` exactly when `data.message?.content` is truthy (the
fragment then yielded is its string coercion `s`), and `done` is the
truthiness of `data.done`. -/
structure StreamFrame where
  yields : Option String
  done : Bool
deriving DecidableEq

/-- Decode one line exactly as the loop body of `streamChat` does:
`JSON.parse` the line (`none` models the thrown exception, which the code
swallows), extract `data.message?.content` and `data.done`. -/
def parseFrame (line : String) : Option StreamFrame :=
  (jsonParse line).map (fun v =>
    { yields :=
        match v with
        | Json.obj fields =>
          match jsonLookup fields "message" with
          | some (Json.obj mfields) =>
            match jsonLookup mfields "content" with
            | some c => if jsonTruthy c then some (jsDisplay c) else none
            | none => none
          | _ => none
        | _ => none
      done :=
        match v with
        | Json.obj fields =>
          match jsonLookup fields "done" with
          | some d => jsonTruthy d
          | none => false
        | _ => false })

/-- Process the lines of one chunk in order, as the inner `for` loop of
`streamChat` does: invalid JSON lines are skipped, a truthy
`message.content` yields a fragment, and a truthy `done` returns from the
generator (dropping the remaining lines).  Returns the fragments yielded
and whether `done` fired. -/
def runLines (lines : List String) : List String × Bool :=
  match lines with
  | [] => ([], false)
  | line :: rest =>
    match parseFrame line with
    | none => runLines rest
    | some f =>
      let emitted := match f.yields with
        | some s => [s]
        | none => []
      if f.done then (emitted, true)
      else
        let r := runLines rest
        (emitted ++ r.1, r.2)

/-- JavaScript `chunk.split('\n')`: split on newlines, keeping empty
pieces. -/
def splitNl (cs : List Char) : List String :=
  match cs with
  | [] => [""]
  | c :: rest =>
    if c = '\n' then "" :: splitNl rest
    else
      match splitNl rest with
      | [] => [String.mk [c]]
      | s :: ss => String.mk (c :: s.data) :: ss

/-- Whitespace-trim of a character list (JavaScript `String.prototype.trim`
restricted to the ASCII whitespace that occurs in the protocol). -/
def trimChars (cs : List Char) : List Char :=
  ((cs.dropWhile isWsChar).reverse.dropWhile isWsChar).reverse

/-- The per-chunk line extraction of `streamChat`:
`chunk.split('\n').filter(line => line.trim())`. -/
def chunkLines (chunk : String) : List String :=
  (splitNl chunk.data).filter (fun l => !(trimChars l.data).isEmpty)

/-- The fragment sequence produced by `OllamaClient.streamChat` from the
response-body chunks (each chunk already text-decoded):
each chunk is split into lines and processed independently — NO residual
buffer carries an unterminated final line to the next chunk — and a truthy
`done` ends the whole stream. -/
def streamChatFragments (chunks : List String) : List String :=
  match chunks with
  | [] => []
  | chunk :: rest =>
    let r := runLines (chunkLines chunk)
    if r.2 then r.1 else r.1 ++ streamChatFragments rest

/-! ### Record store: `MemStorage` in `server/storage.ts`.

The `settings` collection is not modelled: no claim concerns it.  Dates are
logical-clock naturals, `randomUUID()` is the `nextId` counter, and each
JavaScript `Map` is a list in insertion order. -/

/-- A `Conversation` record (`shared/schema.ts`). -/
structure Conversation where
  id : Nat
  title : String
  model : String
  createdAt : Nat
  updatedAt : Nat
deriving DecidableEq

/-- A `Message` record (`shared/schema.ts`). -/
structure Message where
  id : Nat
  conversationId : Nat
  role : String
  content : String
  timestamp : Nat
deriving DecidableEq

/-- An `OllamaModel` record (`shared/schema.ts`). -/
structure OllamaModel where
  id : Nat
  name : String
  displayName : String
  size : Option String
  isAvailable : Bool
  lastUpdated : Nat
deriving DecidableEq

/-- The in-memory store (`MemStorage`). -/
structure MemStorage where
  conversations : List Conversation
  messages : List Message
  models : List OllamaModel
  nextId : Nat
deriving DecidableEq

/-- Type `InsertConversation`: body of `POST /api/conversations` after
validation. -/
structure InsertConversation where
  title : String
  model : String
deriving DecidableEq

/-- Type `InsertMessage`: a message to create (id and timestamp omitted). -/
structure InsertMessage where
  conversationId : Nat
  role : String
  content : String
deriving DecidableEq

/-- Type of `Partial<Conversation>` as used by `updateConversation` callers (only
`title` and `model` are ever updated; no route updates timestamps
directly). -/
structure ConversationUpdates where
  title : Option String
  model : Option String
deriving DecidableEq

/-- Type `InsertOllamaModel`.  JavaScript object spread distinguishes an absent
key from a key explicitly set to `undefined`, and the two call sites of
`createOrUpdateModel` differ on this for `size`; so `size` is
`Option (Option String)`: `none` models the key being absent, `some none`
the key present with value `undefined`. -/
structure InsertModel where
  name : String
  displayName : String
  size : Option (Option String)
  isAvailable : Option Bool
deriving DecidableEq

/-- Descending-`updatedAt` comparator used by `getConversations`. -/
def convDesc (a b : Conversation) : Prop := b.updatedAt ≤ a.updatedAt

instance : DecidableRel convDesc := fun a b => Nat.decLe _ _

instance : IsTotal Conversation convDesc := ⟨fun a b => Nat.le_total _ _⟩

instance : IsTrans Conversation convDesc := ⟨fun _ _ _ h h2 => Nat.le_trans h2 h⟩

/-- Operation `MemStorage.getConversations`: all conversations sorted by `updatedAt`
descending (`Array.prototype.sort` is stable; modelled by a stable
insertion sort). -/
def getConversations (s : MemStorage) : List Conversation :=
  s.conversations.insertionSort convDesc

/-- Operation `MemStorage.createConversation`: fresh id, `createdAt` and `updatedAt`
both set to the current time. -/
def createConversation (s : MemStorage) (ins : InsertConversation) (now : Nat) :
    Conversation × MemStorage :=
  let conv : Conversation :=
    { id := s.nextId, title := ins.title, model := ins.model, createdAt := now, updatedAt := now }
  (conv, { s with conversations := s.conversations ++ [conv], nextId := s.nextId + 1 })

/-- Operation `MemStorage.updateConversation`: merge the updates over the found
record and stamp `updatedAt` with the current time; `none` when the id is
unknown. -/
def updateConversation (s : MemStorage) (id : Nat) (upd : ConversationUpdates) (now : Nat) :
    Option Conversation × MemStorage :=
  match s.conversations.find? (fun c => c.id == id) with
  | none => (none, s)
  | some c =>
    let updated : Conversation :=
      { c with
        title := upd.title.getD c.title
        model := upd.model.getD c.model
        updatedAt := now }
    (some updated,
      { s with conversations := s.conversations.map (fun x => if x.id = id then updated else x) })

/-- Operation `MemStorage.deleteConversation`: remove the conversation if present and
cascade-delete every message whose `conversationId` matches; report whether
anything was deleted. -/
def deleteConversation (s : MemStorage) (id : Nat) : Bool × MemStorage :=
  if s.conversations.any (fun c => c.id == id) then
    (true,
      { s with
        conversations := s.conversations.filter (fun c => c.id != id)
        messages := s.messages.filter (fun m => m.conversationId != id) })
  else (false, s)

/-- Route `DELETE /api/conversations/:id` (`server/routes.ts`): status 204 on a
successful delete, 404 when the conversation is unknown. -/
def deleteConversationRoute (s : MemStorage) (id : Nat) : Nat × MemStorage :=
  let r := deleteConversation s id
  if r.1 then (204, r.2) else (404, r.2)

/-- Ascending-timestamp comparator used by `getMessages`. -/
def msgAsc (a b : Message) : Prop := a.timestamp ≤ b.timestamp

instance : DecidableRel msgAsc := fun a b => Nat.decLe _ _

instance : IsTotal Message msgAsc := ⟨fun a b => Nat.le_total _ _⟩

instance : IsTrans Message msgAsc := ⟨fun _ _ _ => Nat.le_trans⟩

/-- Operation `MemStorage.getMessages`: the messages of one conversation, sorted by
timestamp ascending. -/
def getMessages (s : MemStorage) (conversationId : Nat) : List Message :=
  (s.messages.filter (fun m => m.conversationId == conversationId)).insertionSort msgAsc

/-- Operation `MemStorage.createMessage`: fresh id, current time as the timestamp.
Note that it touches ONLY the message collection — the owning
conversation's record (in particular its `updatedAt`) is left as is. -/
def createMessage (s : MemStorage) (ins : InsertMessage) (now : Nat) : Message × MemStorage :=
  let msg : Message :=
    { id := s.nextId, conversationId := ins.conversationId, role := ins.role,
      content := ins.content, timestamp := now }
  (msg, { s with messages := s.messages ++ [msg], nextId := s.nextId + 1 })

/-- The record written by the update branch of `createOrUpdateModel`: the
spread `{...existing, ...insertModel, lastUpdated: new Date()}` — the id
(absent from the insert payload) survives from `existing`, a present `size`
key overwrites, an absent one leaves the stored value. -/
def modelFromUpdate (existing : OllamaModel) (ins : InsertModel) (now : Nat) : OllamaModel :=
  { id := existing.id
    name := ins.name
    displayName := ins.displayName
    size := match ins.size with
      | some v => v
      | none => existing.size
    isAvailable := ins.isAvailable.getD existing.isAvailable
    lastUpdated := now }

/-- The record written by the insert branch of `createOrUpdateModel`:
fresh id, `size: insertModel.size || null` (so `undefined` and `""` become
`null`), `isAvailable: insertModel.isAvailable ?? true`. -/
def modelFromInsert (ins : InsertModel) (id now : Nat) : OllamaModel :=
  { id := id
    name := ins.name
    displayName := ins.displayName
    size := match ins.size.getD none with
      | some str => if str = "" then none else some str
      | none => none
    isAvailable := ins.isAvailable.getD true
    lastUpdated := now }

/-- Operation `MemStorage.createOrUpdateModel`: upsert keyed on `name`.  When a
record with the name exists it is updated in place (same id, same position
in the map); otherwise a record with a fresh id is inserted. -/
def createOrUpdateModel (s : MemStorage) (ins : InsertModel) (now : Nat) :
    OllamaModel × MemStorage :=
  match s.models.find? (fun m => m.name == ins.name) with
  | some existing =>
    let updated := modelFromUpdate existing ins now
    (updated,
      { s with models := s.models.map (fun m => if m.id = existing.id then updated else m) })
  | none =>
    let created := modelFromInsert ins s.nextId now
    (created, { s with models := s.models ++ [created], nextId := s.nextId + 1 })

/-- Well-formedness of the model collection in a reachable store: names are
unique, ids are unique, and every id was produced by the fresh-id counter
(the analogue of `randomUUID()` freshness). -/
def ModelStoreWF (s : MemStorage) : Prop :=
  (s.models.map (fun m => m.name)).Nodup ∧
  (s.models.map (fun m => m.id)).Nodup ∧
  s.models.all (fun m => m.id < s.nextId) = true

/-! ### Chat route handler: `POST /api/conversations/:id/chat`. -/

/-- One wire frame written to the SSE response. -/
inductive SSEFrame where
  | data (content : String) (done : Bool)
  | error (msg : String)
deriving DecidableEq

/-- One observable action of the chat handler, in program order: an SSE
write, the `storage.createMessage` persist, or `res.end()`. -/
inductive ChatEvent where
  | write (f : SSEFrame)
  | persist (role : String) (content : String)
  | closeResp
deriving DecidableEq

/-- Observable behavior of the `for await` loop's stream: the fragments it
yields, followed by either normal completion or a thrown error. -/
inductive StreamOutcome where
  | ok (frags : List String)
  | err (frags : List String)

/-- The `for await` loop body: append each fragment to the accumulator and
write a `{content: fragment, done: false}` frame immediately.  Returns the
final accumulator and the writes in order. -/
def chatLoop (frags : List String) (acc : String) : String × List ChatEvent :=
  match frags with
  | [] => (acc, [])
  | c :: rest =>
    let r := chatLoop rest (acc ++ c)
    (r.1, ChatEvent.write (SSEFrame.data c false) :: r.2)

/-- The streaming section of the chat route (lines 243–263 of
`server/routes.ts`): on normal completion persist the accumulated
assistant message and then write the terminal frame; on an error thrown by
the stream write an error frame and persist nothing; in both cases end the
response. -/
def chatHandler (outcome : StreamOutcome) : List ChatEvent :=
  match outcome with
  | StreamOutcome.ok frags =>
    let r := chatLoop frags ""
    r.2 ++ [ChatEvent.persist "assistant" r.1,
            ChatEvent.write (SSEFrame.data "" true), ChatEvent.closeResp]
  | StreamOutcome.err frags =>
    let r := chatLoop frags ""
    r.2 ++ [ChatEvent.write (SSEFrame.error "Failed to generate response"), ChatEvent.closeResp]

/-- Interpretation of the handler's events against the store: `persist`
runs `storage.createMessage` for the request's conversation; writes and
`res.end()` do not touch the store. -/
def applyChatEvents (s : MemStorage) (cid t : Nat) : List ChatEvent → MemStorage
  | [] => s
  | ChatEvent.persist role content :: rest =>
    applyChatEvents (createMessage s ⟨cid, role, content⟩ t).2 cid t rest
  | ChatEvent.write _ :: rest => applyChatEvents s cid t rest
  | ChatEvent.closeResp :: rest => applyChatEvents s cid t rest

/-! ### Client-side title derivation (`startNewConversation`). -/

/-- Character-level JavaScript `slice(0, n)`. -/
def sliceChars (s : String) (n : Nat) : String := String.mk (s.data.take n)

/-- The conversation title derived by `startNewConversation`:
`firstMessage.slice(0, 50) + (firstMessage.length > 50 ? '...' : '')`,
falling back to `'New Chat'` when there is no first message. -/
def deriveTitle (firstMessage : Option String) : String :=
  match firstMessage with
  | some m => sliceChars m 50 ++ (if m.length > 50 then "..." else "")
  | none => "New Chat"

/-! ### Example stores used to instantiate theorems with hypotheses. -/

/-- A store with one conversation (id 0) and one of its messages. -/
def exStore : MemStorage :=
  { conversations := [{ id := 0, title := "t", model := "m", createdAt := 0, updatedAt := 0 }]
    messages := [{ id := 1, conversationId := 0, role := "user", content := "hi", timestamp := 1 }]
    models := []
    nextId := 2 }

/-- The empty store (`MemStorage` as constructed, settings aside). -/
def emptyStorage : MemStorage :=
  { conversations := [], messages := [], models := [], nextId := 0 }

/-- An insert-model payload as built by the `GET /api/models` sync route. -/
def exInsertModel : InsertModel :=
  { name := "llama3.1", displayName := "llama3.1", size := some (some "4.7GB"),
    isAvailable := some true }

/-! ### Helper lemmas -/

theorem chatLoop_acc (frags : List String) (acc : String) :
    (chatLoop frags acc).1 = frags.foldl (fun a c => a ++ c) acc := by
  induction frags generalizing acc with
  | nil => rfl
  | cons c rest ih => simp [chatLoop, ih]

theorem chatLoop_events (frags : List String) (acc : String) :
    (chatLoop frags acc).2 = frags.map (fun c => ChatEvent.write (SSEFrame.data c false)) := by
  induction frags generalizing acc with
  | nil => rfl
  | cons c rest ih => simp [chatLoop, ih]

theorem applyChatEvents_write_prefix (s : MemStorage) (cid t : Nat) (ws : List String)
    (rest : List ChatEvent) :
    applyChatEvents s cid t ((ws.map fun c => ChatEvent.write (SSEFrame.data c false)) ++ rest) =
      applyChatEvents s cid t rest := by
  induction ws with
  | nil => rfl
  | cons c ws2 ih => simpa [applyChatEvents] using ih

/-! ### Claim theorems -/

/-- C1: when the inference stream yields fragments and completes normally,
the chat endpoint's event trace is exactly one `{content: fragment,
done: false}` write per fragment in arrival order, then the single persist
of one assistant message whose content is the concatenation of the
fragments in arrival order, then the terminal `{content: "", done: true}`
write as the last frame (so the persist happens before the terminal frame);
interpreting the trace against any store appends exactly one new assistant
message with that content. -/
theorem chat_ok_persists_once_and_frames (frags : List String) (s : MemStorage) (cid t : Nat) :
    chatHandler (StreamOutcome.ok frags) =
      (frags.map fun c => ChatEvent.write (SSEFrame.data c false)) ++
        [ChatEvent.persist "assistant" (frags.foldl (fun acc c => acc ++ c) ""),
         ChatEvent.write (SSEFrame.data "" true), ChatEvent.closeResp] ∧
    (applyChatEvents s cid t (chatHandler (StreamOutcome.ok frags))).messages =
      s.messages ++
        [{ id := s.nextId, conversationId := cid, role := "assistant",
           content := frags.foldl (fun acc c => acc ++ c) "", timestamp := t }] := by
  have htrace : chatHandler (StreamOutcome.ok frags) =
      (frags.map fun c => ChatEvent.write (SSEFrame.data c false)) ++
        [ChatEvent.persist "assistant" (frags.foldl (fun acc c => acc ++ c) ""),
         ChatEvent.write (SSEFrame.data "" true), ChatEvent.closeResp] := by
    simp [chatHandler, chatLoop_acc, chatLoop_events]
  refine ⟨htrace, ?_⟩
  rw [htrace, applyChatEvents_write_prefix]
  simp [applyChatEvents, createMessage]

/-- C2: when the inference stream throws after yielding zero or more
fragments, the trace is the content writes for the yielded fragments
followed by an error frame and the close of the response, with no persist
event at all: interpreting the trace against any store leaves it
unchanged — no (partial) assistant message is persisted. -/
theorem chat_err_no_persist (frags : List String) (s : MemStorage) (cid t : Nat) :
    chatHandler (StreamOutcome.err frags) =
      (frags.map fun c => ChatEvent.write (SSEFrame.data c false)) ++
        [ChatEvent.write (SSEFrame.error "Failed to generate response"), ChatEvent.closeResp] ∧
    applyChatEvents s cid t (chatHandler (StreamOutcome.err frags)) = s := by
  have htrace : chatHandler (StreamOutcome.err frags) =
      (frags.map fun c => ChatEvent.write (SSEFrame.data c false)) ++
        [ChatEvent.write (SSEFrame.error "Failed to generate response"), ChatEvent.closeResp] := by
    simp [chatHandler, chatLoop_events]
  refine ⟨htrace, ?_⟩
  rw [htrace, applyChatEvents_write_prefix]
  rfl

/-- C10: a stream that completes normally with zero fragments still
persists one assistant message with empty content and still emits the
terminal `{content: "", done: true}` frame — the empty reply is committed,
not skipped or treated as an error. -/
theorem chat_empty_ok_commits_empty_reply (s : MemStorage) (cid t : Nat) :
    chatHandler (StreamOutcome.ok []) =
      [ChatEvent.persist "assistant" "", ChatEvent.write (SSEFrame.data "" true),
       ChatEvent.closeResp] ∧
    (applyChatEvents s cid t (chatHandler (StreamOutcome.ok []))).messages =
      s.messages ++
        [{ id := s.nextId, conversationId := cid, role := "assistant",
           content := "", timestamp := t }] := by
  refine ⟨rfl, ?_⟩
  simp [chatHandler, chatLoop, applyChatEvents, createMessage]

/-- C4 (behavior of the code at the claim's scenario): the same byte
stream decoded as two chunks, with a valid frame's line split across the
chunk boundary, yields NO fragment — both halves of the split line fail
`JSON.parse` and are skipped — whereas decoding the identical bytes in a
single chunk yields the fragment `"Hi"`.  The decoder keeps no residual
buffer between chunks, so the claimed carry-over property fails. -/
theorem split_frame_dropped :
    streamChatFragments
        ["\x7b\"message\":\x7b\"content\":\"Hi\"\x7d", "\x7d\n\x7b\"done\":true\x7d\n"] = [] ∧
    streamChatFragments
        ["\x7b\"message\":\x7b\"content\":\"Hi\"\x7d\x7d\n\x7b\"done\":true\x7d\n"] = ["Hi"] :=
  ⟨by decide, by decide⟩

/-- C5: a line that `JSON.parse` rejects is a no-op for the line-processing
loop: wherever it is interleaved among the lines, the fragments produced
and the done flag are exactly those of the same line sequence without it —
the stream is not aborted and every subsequent valid line still yields its
fragment. -/
theorem malformed_line_skipped (pre post : List String) (bad : String)
    (h : parseFrame bad = none) :
    runLines (pre ++ bad :: post) = runLines (pre ++ post) := by
  induction pre with
  | nil => simp [runLines, h]
  | cons p pre2 ih =>
    cases hp : parseFrame p with
    | none => simpa [runLines, hp] using ih
    | some f => simp [runLines, hp, ih]

/-- Witness for C5 at a concrete malformed line between two valid lines. -/
theorem malformed_line_skipped_witness :
    runLines ["\x7b\"message\":\x7b\"content\":\"A\"\x7d\x7d", "garbage\x7b",
              "\x7b\"message\":\x7b\"content\":\"B\"\x7d\x7d"] =
      runLines ["\x7b\"message\":\x7b\"content\":\"A\"\x7d\x7d",
                "\x7b\"message\":\x7b\"content\":\"B\"\x7d\x7d"] :=
  malformed_line_skipped ["\x7b\"message\":\x7b\"content\":\"A\"\x7d\x7d"]
    ["\x7b\"message\":\x7b\"content\":\"B\"\x7d\x7d"] "garbage\x7b" (by decide)

/-- C8: the derived conversation title is the prompt itself when the prompt
has at most 50 characters, and the first 50 characters followed by the
ellipsis marker `"..."` (53 characters in all) when it is longer. -/
theorem title_first_fifty (m : String) :
    (m.length ≤ 50 → deriveTitle (some m) = m) ∧
    (50 < m.length →
      deriveTitle (some m) = sliceChars m 50 ++ "..." ∧
      (sliceChars m 50).length = 50 ∧ (deriveTitle (some m)).length = 53) := by
  constructor
  · intro h
    have hnot : ¬ m.length > 50 := by omega
    have htake : m.data.take 50 = m.data := List.take_of_length_le h
    simp [deriveTitle, sliceChars, hnot, htake]
  · intro h
    have hteq : deriveTitle (some m) = sliceChars m 50 ++ "..." := by
      simp [deriveTitle, h]
    have hlen : (sliceChars m 50).length = 50 := by
      show (m.data.take 50).length = 50
      rw [List.length_take]
      have : m.data.length = m.length := rfl
      omega
    refine ⟨hteq, hlen, ?_⟩
    rw [hteq, String.length_append, hlen]
    rfl

/-- Witness for C8: a 60-character first message yields its first 50
characters plus the ellipsis; a 30-character one is used verbatim. -/
theorem title_first_fifty_witness :
    deriveTitle (some "abcdefghijklmnopqrstuvwxyz0123") =
      "abcdefghijklmnopqrstuvwxyz0123" ∧
    deriveTitle (some "abcdefghijklmnopqrstuvwxyz0123456789abcdefghijklmnopqrstuvw") =
      sliceChars "abcdefghijklmnopqrstuvwxyz0123456789abcdefghijklmnopqrstuvw" 50 ++ "..." :=
  ⟨(title_first_fifty "abcdefghijklmnopqrstuvwxyz0123").1 (by decide),
   ((title_first_fifty "abcdefghijklmnopqrstuvwxyz0123456789abcdefghijklmnopqrstuvw").2
      (by decide)).1⟩

/-- C9: for every store state and conversation id, `getMessages` returns a
list sorted in non-decreasing timestamp order in which every element's
`conversationId` equals the requested one. -/
theorem get_messages_sorted (s : MemStorage) (cid : Nat) :
    List.Sorted msgAsc (getMessages s cid) ∧
    (getMessages s cid).all (fun m => m.conversationId == cid) = true := by
  constructor
  · exact List.sorted_insertionSort msgAsc _
  · rw [List.all_eq_true]
    intro m hm
    rw [getMessages, List.mem_insertionSort] at hm
    exact (List.mem_filter.1 hm).2

/-- C3 counterexample: appending a message at time 5 to the conversation
created (and last updated) at time 0 does mutate the message collection,
yet no conversation in the store has its `updatedAt` refreshed to the
mutation time — `createMessage` never touches the conversation record, and
no route updates a conversation on message append. -/
theorem message_append_leaves_updatedAt_stale :
    ((createMessage exStore ⟨0, "user", "hello"⟩ 5).2.conversations.all
        (fun c => c.updatedAt == 5)) = false ∧
    (createMessage exStore ⟨0, "user", "hello"⟩ 5).2.messages.length =
      exStore.messages.length + 1 :=
  ⟨by decide, by decide⟩

/-- C3 amended: `updatedAt ≥ createdAt` does hold — a freshly created
conversation has `updatedAt = createdAt`, and `updateConversation` stamps
the current time, preserving the invariant under a monotone clock — but
appending a message does NOT refresh the conversation's `updatedAt`:
`createMessage` leaves the conversation collection entirely unchanged. -/
theorem conversation_timestamps_amended (s : MemStorage) (insM : InsertMessage)
    (insC : InsertConversation) (id t : Nat) (upd : ConversationUpdates) :
    (createMessage s insM t).2.conversations = s.conversations ∧
    ((createConversation s insC t).1.updatedAt = t ∧
      (createConversation s insC t).1.createdAt = t) ∧
    (s.conversations.all
        (fun c => decide (c.createdAt ≤ c.updatedAt) && decide (c.createdAt ≤ t)) = true →
      (updateConversation s id upd t).2.conversations.all
        (fun c => decide (c.createdAt ≤ c.updatedAt)) = true) := by
  refine ⟨rfl, ⟨rfl, rfl⟩, ?_⟩
  intro h
  rw [List.all_eq_true] at h
  cases hf : s.conversations.find? (fun c => c.id == id) with
  | none =>
    simp only [updateConversation, hf]
    rw [List.all_eq_true]
    intro c hc
    have := h c hc
    simp only [Bool.and_eq_true, decide_eq_true_iff] at this ⊢
    exact this.1
  | some c0 =>
    have hc0 := List.mem_of_find?_eq_some hf
    have hc0t := h c0 hc0
    simp only [Bool.and_eq_true, decide_eq_true_iff] at hc0t
    simp only [updateConversation, hf]
    rw [List.all_eq_true]
    intro c hc
    rw [List.mem_map] at hc
    obtain ⟨x, hx, rfl⟩ := hc
    by_cases hxid : x.id = id
    · have hx2 := h x hx
      simp only [Bool.and_eq_true, decide_eq_true_iff] at hx2
      simp only [hxid, if_pos, decide_eq_true_iff]
      exact hc0t.2
    · have hx2 := h x hx
      simp only [Bool.and_eq_true, decide_eq_true_iff] at hx2
      simp only [hxid, if_neg, decide_eq_true_iff]
      exact hx2.1

/-- Witness for C3's amended claim: the update hypothesis discharged at a
concrete store and clock. -/
theorem conversation_timestamps_amended_witness :
    (updateConversation exStore 0 ⟨some "new title", none⟩ 7).2.conversations.all
        (fun c => decide (c.createdAt ≤ c.updatedAt)) = true :=
  (conversation_timestamps_amended exStore ⟨0, "user", "hi"⟩ ⟨"t", "m"⟩ 0 7
    ⟨some "new title", none⟩).2.2 (by decide)

/-- C6: deleting a present conversation reports success (204 at the
route), removes it from `getConversations`, and removes every one of its
messages (`getMessages` on the deleted id is empty); deleting an unknown
id reports failure (404 at the route) and leaves the store unchanged. -/
theorem delete_conversation_cascade (s : MemStorage) (id : Nat) :
    (s.conversations.any (fun c => c.id == id) = true →
      (deleteConversation s id).1 = true ∧
      getMessages (deleteConversation s id).2 id = [] ∧
      (getConversations (deleteConversation s id).2).all (fun c => c.id != id) = true ∧
      deleteConversationRoute s id = (204, (deleteConversation s id).2)) ∧
    (s.conversations.any (fun c => c.id == id) = false →
      deleteConversation s id = (false, s) ∧
      deleteConversationRoute s id = (404, s)) := by
  constructor
  · intro h
    have h1 : (deleteConversation s id).1 = true := by simp [deleteConversation, h]
    have hs2 : (deleteConversation s id).2 =
        { s with
          conversations := s.conversations.filter (fun c => c.id != id)
          messages := s.messages.filter (fun m => m.conversationId != id) } := by
      simp [deleteConversation, h]
    refine ⟨h1, ?_, ?_, ?_⟩
    · rw [hs2]
      have hnil : (s.messages.filter (fun m => m.conversationId != id)).filter
          (fun m => m.conversationId == id) = [] := by
        rw [List.filter_eq_nil_iff]
        intro m hm
        have hne : (m.conversationId != id) = true := (List.mem_filter.1 hm).2
        simp only [bne_iff_ne, ne_eq] at hne
        simp [hne]
      simp [getMessages, hnil, List.insertionSort]
    · rw [hs2, List.all_eq_true]
      intro c hc
      rw [getConversations, List.mem_insertionSort] at hc
      exact (List.mem_filter.1 hc).2
    · simp [deleteConversationRoute, h1]
  · intro h
    have h0 : deleteConversation s id = (false, s) := by
      simp [deleteConversation, h]
    exact ⟨h0, by simp [deleteConversationRoute, h0]⟩

/-- Witness for C6: both branches at a concrete store — id 0 is present
(cascade observed), id 99 absent (404, store untouched). -/
theorem delete_conversation_cascade_witness :
    ((deleteConversation exStore 0).1 = true ∧
      getMessages (deleteConversation exStore 0).2 0 = []) ∧
    deleteConversationRoute exStore 99 = (404, exStore) :=
  ⟨⟨((delete_conversation_cascade exStore 0).1 (by decide)).1,
    ((delete_conversation_cascade exStore 0).1 (by decide)).2.1⟩,
   ((delete_conversation_cascade exStore 99).2 (by decide)).2⟩

/-! ### Lemmas about in-place map updates, toward the model upsert claim. -/

theorem map_replace_ids (l : List OllamaModel) (e u : OllamaModel) (hu : u.id = e.id) :
    (l.map (fun m => if m.id = e.id then u else m)).map (fun m => m.id) =
      l.map (fun m => m.id) := by
  rw [List.map_map]
  apply List.map_congr_left
  intro x hx
  by_cases h2 : x.id = e.id
  · simp [Function.comp, h2, hu]
  · simp [Function.comp, h2]

theorem map_replace_names (l : List OllamaModel) (e u : OllamaModel)
    (hid : (l.map (fun m => m.id)).Nodup) (he : e ∈ l) (hn : u.name = e.name) :
    (l.map (fun m => if m.id = e.id then u else m)).map (fun m => m.name) =
      l.map (fun m => m.name) := by
  rw [List.map_map]
  apply List.map_congr_left
  intro x hx
  by_cases h2 : x.id = e.id
  · have hxe : x = e := List.inj_on_of_nodup_map hid hx he h2
    simp [Function.comp, h2, hn, hxe]
  · simp [Function.comp, h2]

theorem find?_append_of_none {α} {p : α → Bool} {l l2 : List α}
    (h : l.find? p = none) : (l ++ l2).find? p = l2.find? p := by
  rw [List.find?_append, h, Option.none_or]

/-- Finding by name in a list whose element with the found id was replaced
by a record of the same name locates the replacement (ids are assumed
duplicate-free, as UUID keys are). -/
theorem find?_replace (l : List OllamaModel) (e u : OllamaModel) (n : String)
    (hid : (l.map (fun m => m.id)).Nodup)
    (hfind : l.find? (fun m => m.name == n) = some e)
    (hu : (u.name == n) = true) :
    (l.map (fun m => if m.id = e.id then u else m)).find? (fun m => m.name == n) = some u := by
  induction l with
  | nil => cases hfind
  | cons a l ih =>
    rw [List.map_cons]
    by_cases hpa : (a.name == n) = true
    · have ha : a = e := by
        have h2 : (a :: l).find? (fun m => m.name == n) = some a := by
          simp [List.find?, hpa]
        exact Option.some.inj (h2.symm.trans hfind)
      subst ha
      rw [if_pos rfl]
      simp [List.find?, hu]
    · rw [Bool.not_eq_true] at hpa
      have hfind2 : l.find? (fun m => m.name == n) = some e := by
        simpa [List.find?, hpa] using hfind
      have he : e ∈ l := List.mem_of_find?_eq_some hfind2
      have hne : ¬ a.id = e.id := by
        intro hai
        have hae : a = e := List.inj_on_of_nodup_map hid (List.mem_cons_self a l)
          (List.mem_cons_of_mem a he) hai
        have hep := List.find?_some hfind2
        rw [← hae, hpa] at hep
        cases hep
      rw [List.map_cons] at hid
      rw [if_neg hne]
      simp only [List.find?, hpa]
      exact ih (List.nodup_cons.1 hid).2 hfind2

/-- A list whose names are duplicate-free holds at most one record of any
given name. -/
theorem filter_name_le_one (l : List OllamaModel) (n : String)
    (h : (l.map (fun m => m.name)).Nodup) :
    (l.filter (fun m => m.name == n)).length ≤ 1 := by
  induction l with
  | nil => simp
  | cons a l ih =>
    rw [List.map_cons, List.nodup_cons] at h
    by_cases ha : (a.name == n) = true
    · have hnil : l.filter (fun m => m.name == n) = [] := by
        rw [List.filter_eq_nil_iff]
        intro b hb hbn
        apply h.1
        rw [List.mem_map]
        refine ⟨b, hb, ?_⟩
        have h1 : b.name = n := by simpa using hbn
        have h2 : a.name = n := by simpa using ha
        rw [h1, h2]
      simp [List.filter_cons, ha, hnil]
    · rw [Bool.not_eq_true] at ha
      simp only [List.filter_cons, ha, if_false]
      exact ih h.2

/-- The update branch of `createOrUpdateModel`, as an equation. -/
theorem createOrUpdateModel_found (s : MemStorage) (ins : InsertModel) (t : Nat)
    (e : OllamaModel) (h : s.models.find? (fun m => m.name == ins.name) = some e) :
    createOrUpdateModel s ins t =
      (modelFromUpdate e ins t,
        { s with
          models := s.models.map (fun m => if m.id = e.id then modelFromUpdate e ins t else m) }) := by
  simp [createOrUpdateModel, h]

/-- The insert branch of `createOrUpdateModel`, as an equation. -/
theorem createOrUpdateModel_not_found (s : MemStorage) (ins : InsertModel) (t : Nat)
    (h : s.models.find? (fun m => m.name == ins.name) = none) :
    createOrUpdateModel s ins t =
      (modelFromInsert ins s.nextId t,
        { s with
          models := s.models ++ [modelFromInsert ins s.nextId t]
          nextId := s.nextId + 1 }) := by
  simp [createOrUpdateModel, h]

/-- Upsert `createOrUpdateModel` preserves well-formedness of the model
collection: unique names, unique ids, ids below the fresh-id counter. -/
theorem createOrUpdateModel_wf (s : MemStorage) (ins : InsertModel) (t : Nat)
    (h : ModelStoreWF s) : ModelStoreWF (createOrUpdateModel s ins t).2 := by
  obtain ⟨hname, hid, hlt⟩ := h
  rw [List.all_eq_true] at hlt
  cases hf : s.models.find? (fun m => m.name == ins.name) with
  | some e =>
    have he : e ∈ s.models := List.mem_of_find?_eq_some hf
    have hen : e.name = ins.name := by simpa using List.find?_some hf
    have hmodels : (createOrUpdateModel s ins t).2.models =
        s.models.map (fun m => if m.id = e.id then modelFromUpdate e ins t else m) := by
      simp [createOrUpdateModel, hf]
    have hnext : (createOrUpdateModel s ins t).2.nextId = s.nextId := by
      simp [createOrUpdateModel, hf]
    refine ⟨?_, ?_, ?_⟩
    · rw [hmodels, map_replace_names s.models e (modelFromUpdate e ins t) hid he
        (by simp [modelFromUpdate, hen])]
      exact hname
    · rw [hmodels, map_replace_ids s.models e (modelFromUpdate e ins t) rfl]
      exact hid
    · rw [hmodels, hnext, List.all_eq_true]
      intro y hy
      rw [List.mem_map] at hy
      obtain ⟨x, hx, rfl⟩ := hy
      by_cases h2 : x.id = e.id
      · simpa [h2, modelFromUpdate] using hlt e he
      · simpa [h2] using hlt x hx
  | none =>
    have hnotin : ∀ m ∈ s.models, ¬ (m.name == ins.name) = true := List.find?_eq_none.1 hf
    have hmodels : (createOrUpdateModel s ins t).2.models =
        s.models ++ [modelFromInsert ins s.nextId t] := by
      simp [createOrUpdateModel, hf]
    have hnext : (createOrUpdateModel s ins t).2.nextId = s.nextId + 1 := by
      simp [createOrUpdateModel, hf]
    refine ⟨?_, ?_, ?_⟩
    · rw [hmodels, List.map_append]
      rw [List.nodup_append]
      refine ⟨hname, by simp, ?_⟩
      intro x hx hy
      rw [List.mem_map] at hx
      obtain ⟨mx, hmx, rfl⟩ := hx
      simp only [List.map_cons, List.map_nil, List.mem_singleton] at hy
      apply hnotin mx hmx
      simp only [modelFromInsert] at hy
      simp [hy]
    · rw [hmodels, List.map_append]
      rw [List.nodup_append]
      refine ⟨hid, by simp, ?_⟩
      intro x hx hy
      rw [List.mem_map] at hx
      obtain ⟨mx, hmx, rfl⟩ := hx
      simp only [List.map_cons, List.map_nil, List.mem_singleton] at hy
      have hx2 := hlt mx hmx
      simp only [decide_eq_true_iff] at hx2
      simp only [modelFromInsert] at hy
      omega
    · rw [hmodels, hnext, List.all_eq_true]
      intro y hy
      rw [List.mem_append] at hy
      cases hy with
      | inl hy =>
        have := hlt y hy
        simp only [decide_eq_true_iff] at this ⊢
        omega
      | inr hy =>
        rw [List.mem_singleton] at hy
        subst hy
        simp [modelFromInsert]

/-- C7: calling `createOrUpdateModel` twice with the same name (starting
from a well-formed store) returns on the second call a record with the
same id as the first call's record — the original identity is preserved —
and leaves at most one record with that name in the store, whose name
column stays duplicate-free. -/
theorem create_or_update_model_upsert (s : MemStorage) (a b : InsertModel) (t1 t2 : Nat)
    (hn : b.name = a.name) (hwf : ModelStoreWF s) :
    (createOrUpdateModel (createOrUpdateModel s a t1).2 b t2).1.id =
      (createOrUpdateModel s a t1).1.id ∧
    ((createOrUpdateModel (createOrUpdateModel s a t1).2 b t2).2.models.map
        (fun m => m.name)).Nodup ∧
    ((createOrUpdateModel (createOrUpdateModel s a t1).2 b t2).2.models.filter
        (fun m => m.name == b.name)).length ≤ 1 := by
  have hwf1 := createOrUpdateModel_wf s a t1 hwf
  have hwf2 := createOrUpdateModel_wf _ b t2 hwf1
  refine ⟨?_, hwf2.1, filter_name_le_one _ _ hwf2.1⟩
  obtain ⟨hname, hid, hlt⟩ := hwf
  cases hf : s.models.find? (fun m => m.name == a.name) with
  | some e =>
    have heq1 := createOrUpdateModel_found s a t1 e hf
    have hmodels1 : (createOrUpdateModel s a t1).2.models =
        s.models.map (fun m => if m.id = e.id then modelFromUpdate e a t1 else m) := by
      rw [heq1]
    have hfind2 : ((createOrUpdateModel s a t1).2.models).find? (fun m => m.name == b.name) =
        some (modelFromUpdate e a t1) := by
      rw [hmodels1, hn]
      exact find?_replace s.models e (modelFromUpdate e a t1) a.name hid hf
        (by simp [modelFromUpdate])
    have heq2 := createOrUpdateModel_found (createOrUpdateModel s a t1).2 b t2
      (modelFromUpdate e a t1) hfind2
    rw [heq2, heq1]
    rfl
  | none =>
    have heq1 := createOrUpdateModel_not_found s a t1 hf
    have hmodels1 : (createOrUpdateModel s a t1).2.models =
        s.models ++ [modelFromInsert a s.nextId t1] := by
      rw [heq1]
    have hnone2 : s.models.find? (fun m => m.name == b.name) = none := by
      rw [hn]; exact hf
    have hfind2 : ((createOrUpdateModel s a t1).2.models).find? (fun m => m.name == b.name) =
        some (modelFromInsert a s.nextId t1) := by
      rw [hmodels1, find?_append_of_none hnone2]
      simp [List.find?, modelFromInsert, hn]
    have heq2 := createOrUpdateModel_found (createOrUpdateModel s a t1).2 b t2
      (modelFromInsert a s.nextId t1) hfind2
    rw [heq2, heq1]
    rfl

/-- Witness for C7: two syncs of the same model name into the empty store. -/
theorem create_or_update_model_upsert_witness :
    (createOrUpdateModel (createOrUpdateModel emptyStorage exInsertModel 1).2 exInsertModel 2).1.id =
      (createOrUpdateModel emptyStorage exInsertModel 1).1.id ∧
    ((createOrUpdateModel (createOrUpdateModel emptyStorage exInsertModel 1).2
        exInsertModel 2).2.models.filter
        (fun m => m.name == exInsertModel.name)).length ≤ 1 := by
  have h := create_or_update_model_upsert emptyStorage exInsertModel exInsertModel 1 2 rfl
    (by refine ⟨?_, ?_, ?_⟩ <;> simp [emptyStorage])
  exact ⟨h.1, h.2.2⟩

end OllamaUI
